import Mathlib

/-!
Shallow embedding of `src/mini_project.py`: a SimPy discrete-event simulation of a
pizza-delivery system.  The Python program runs an event-ordered virtual clock, an
exponential arrival generator (`order_generator`), a per-order workflow (`order`:
prepare, request a driver from a fixed-capacity FIFO `simpy.Resource`, deliver,
release, record statistics) and a driving function `run_simulation`.

Randomness: the Python code draws from the globally seeded `random` module, one draw
per call site, in strict chronological call order (`random.expovariate(LAMBDA)` for
arrival gaps, `random.gauss(PREP_MEAN, PREP_STD)` for preparation,
`random.gauss(DELIVERY_MEAN, DELIVERY_STD)` for delivery).  We embed the seeded
source as three value functions indexed by the global draw counter: the n-th call of
the run, whatever its site, consumes counter position n, and the value it receives is
`expOut n` / `prepOut n` / `delivOut n` according to the call site.  This keeps the
essential structure of a single shared stateful source: which position a call consumes
depends on the whole interleaving of the run, so changing the capacity reassigns
draw positions to different orders exactly as with the real shared `random` stream.
Exponential samples are nonnegative by mathematics (`-log(1-u)/λ ≥ 0` for `λ > 0`);
theorems that need clock monotonicity take this as the hypothesis `0 ≤ expOut n`.
Gauss samples are unconstrained (the code floors them with `max(5, ·)` itself).

Scheduler: SimPy pops the pending event with least `(time, priority, insertion id)`.
We keep `(time, insertion seq)` keys; resource grants are performed synchronously at
the instant of the request/release that enables them (SimPy schedules the resumption
of the granted process at the same timestamp), which agrees with SimPy whenever no
two pending events share a timestamp.  `env.run(until=T)` processes exactly the
events strictly before `T` (SimPy's stop event at `T` has urgent priority).

Times and durations live in an arbitrary linearly ordered commutative ring `α`
(Python uses floats; nothing below depends on more than ordered-ring arithmetic).
Universal theorems are stated for every such `α`, so they cover `ℚ` and `ℝ`;
concrete runs used as witnesses and counterexamples are evaluated at `α := ℤ`.
-/

namespace PizzaHut

/-- Configuration of one run: the `num_drivers` argument of `run_simulation`
(an integer, possibly non-positive) together with the module constants
`SIM_TIME` and `SLA_TARGET` and the seeded random source (see the file header:
one value function per call site, all indexed by a single shared draw counter). -/
structure Config (α : Type*) where
  drivers : ℤ
  simTime : α
  slaTarget : α
  expOut : ℕ → α
  prepOut : ℕ → α
  delivOut : ℕ → α

/-- The capacity of the `simpy.Resource` pool, as a natural number. -/
def Config.capacity {α : Type*} (cfg : Config α) : ℕ := cfg.drivers.toNat

variable {α : Type*} [LinearOrderedCommRing α]

/-- Embedding of `PizzaHutSystem.prepare_order`:
`prep_time = max(5, random.gauss(PREP_MEAN, PREP_STD))`, where `i` is the global
draw-counter position consumed by the `gauss` call. -/
def prepare_order (cfg : Config α) (i : ℕ) : α := max 5 (cfg.prepOut i)

/-- Embedding of `PizzaHutSystem.deliver_order`:
`delivery_time = max(5, random.gauss(DELIVERY_MEAN, DELIVERY_STD))`. -/
def deliver_order (cfg : Config α) (i : ℕ) : α := max 5 (cfg.delivOut i)

/-- One record appended to `stats` by `order` (source lines 56-61), instrumented with
the four local timestamps of `order` (`arrival_time`, `ready_time`,
`driver_assigned_time`, `completion_time`) alongside the four emitted fields. -/
structure OrderRecord (α : Type*) where
  Order_ID : ℕ
  arrival_time : α
  ready_time : α
  driver_assigned_time : α
  completion_time : α
  Wait_For_Driver : α
  Total_Delivery_Time : α
  SLA_Met : Bool
deriving DecidableEq, Repr

/-- A pending resource request sitting in the FIFO queue of the driver pool:
the order's id, its `arrival_time`, and its `ready_time` (the time the request
was issued, at the end of preparation). -/
structure Waiter (α : Type*) where
  oid : ℕ
  arrival : α
  ready : α
deriving DecidableEq, Repr

/-- The three kinds of scheduled continuations: the arrival generator's timeout,
an order's preparation timeout (carrying `arrival_time`), and an order's delivery
timeout (carrying `arrival_time`, `ready_time`, `driver_assigned_time`). -/
inductive Ev (α : Type*) where
  | nextArrival : Ev α
  | prepDone (oid : ℕ) (arrival : α) : Ev α
  | delivDone (oid : ℕ) (arrival ready assigned : α) : Ev α
deriving DecidableEq, Repr

/-- A pending event of the scheduler: due time, insertion sequence number
(the tie-break), and the continuation. -/
structure QEntry (α : Type*) where
  time : α
  seq : ℕ
  ev : Ev α
deriving DecidableEq, Repr

/-- The whole simulation state: virtual clock, global draw counter, event-insertion
counter, `order_id` counter, the resource pool (`held` units in use, FIFO `waiters`),
the pending events, and the `stats` list.  `reqLog` and `grantLog` instrument the
pool: oids in the order resource requests were issued, and `(oid, grant time)`
pairs in the order grants were issued. -/
structure SimState (α : Type*) where
  now : α
  idx : ℕ
  nextSeq : ℕ
  orderId : ℕ
  held : ℕ
  waiters : List (Waiter α)
  events : List (QEntry α)
  stats : List (OrderRecord α)
  reqLog : List ℕ
  grantLog : List (ℕ × α)
deriving DecidableEq, Repr

/-- Pop the pending event with least `(time, seq)` key (SimPy's heap order,
restricted to the data our events carry). -/
def popMin : List (QEntry α) → Option (QEntry α × List (QEntry α))
  | [] => none
  | e :: es =>
    match popMin es with
    | none => some (e, [])
    | some (m, rest) =>
      if e.time < m.time ∨ (e.time = m.time ∧ e.seq ≤ m.seq) then some (e, es)
      else some (m, e :: rest)

/-- SimPy's `_trigger_put` loop on `Resource`: grant the longest-waiting pending
requests from the head of the FIFO queue while units remain (`held < capacity`).
Granting draws the delivery duration (the resumed `order` process immediately calls
`deliver_order`), schedules the delivery-completion event, and logs the grant.
The argument `ws` is the pool's FIFO queue; the final state's `waiters` field is
set to whatever part of it remains blocked. -/
def grantWaiters (cfg : Config α) : List (Waiter α) → SimState α → SimState α
  | [], s => { s with waiters := [] }
  | wtr :: rest, s =>
    if s.held < cfg.capacity then
      grantWaiters cfg rest
        { s with
          held := s.held + 1
          idx := s.idx + 1
          nextSeq := s.nextSeq + 1
          events := s.events ++
            [⟨s.now + deliver_order cfg s.idx, s.nextSeq,
              Ev.delivDone wtr.oid wtr.arrival wtr.ready s.now⟩]
          grantLog := s.grantLog ++ [(wtr.oid, s.now)] }
    else { s with waiters := wtr :: rest }

/-- One scheduler step of `env.run(until=SIM_TIME)`: pop the least pending event;
stop (fixed point) if none is left or the least one is due at or after the horizon;
otherwise advance the clock to its due time and run the resumed process slice:

* `nextArrival` — the `order_generator` loop body: `order_id += 1`, spawn `order`,
  draw the next exponential gap and sleep.  The spawned order's first slice draws
  its preparation duration and sleeps (draw order in the source: gap first, then
  preparation, both at the arrival instant).
* `prepDone` — the order records `ready_time = now` and issues
  `system.drivers.request()`: the request joins the FIFO queue and the pool grants
  from the head while capacity remains.
* `delivDone` — the order records `completion_time = now`, computes
  `wait_for_driver` and `total_time`, appends its record to `stats`, and the
  `with` block releases the driver, after which the pool grants the head waiter. -/
def step (cfg : Config α) (s : SimState α) : SimState α :=
  match popMin s.events with
  | none => s
  | some (e, rest) =>
    if cfg.simTime ≤ e.time then s
    else
      match e.ev with
      | Ev.nextArrival =>
        { s with
          now := e.time
          orderId := s.orderId + 1
          idx := s.idx + 2
          nextSeq := s.nextSeq + 2
          events := rest ++
            [⟨e.time + cfg.expOut s.idx, s.nextSeq, Ev.nextArrival⟩,
             ⟨e.time + prepare_order cfg (s.idx + 1), s.nextSeq + 1,
              Ev.prepDone (s.orderId + 1) e.time⟩] }
      | Ev.prepDone oid a =>
        grantWaiters cfg (s.waiters ++ [⟨oid, a, e.time⟩])
          { s with
            now := e.time
            events := rest
            waiters := s.waiters ++ [⟨oid, a, e.time⟩]
            reqLog := s.reqLog ++ [oid] }
      | Ev.delivDone oid a r g =>
        grantWaiters cfg s.waiters
          { s with
            now := e.time
            events := rest
            held := s.held - 1
            stats := s.stats ++
              [⟨oid, a, r, g, e.time, g - r, e.time - a,
                decide (e.time - a ≤ cfg.slaTarget)⟩] }

/-- The state at virtual time `0`, just after the `order_generator` process has run
its first slice (drawn the first exponential gap, consuming draw position `0`, and
scheduled its first arrival timeout). -/
def initState (cfg : Config α) : SimState α :=
  { now := 0
    idx := 1
    nextSeq := 1
    orderId := 0
    held := 0
    waiters := []
    events := [⟨cfg.expOut 0, 0, Ev.nextArrival⟩]
    stats := []
    reqLog := []
    grantLog := [] }

/-- The simulation state after `fuel` scheduler steps.  Once no pending event is due
before the horizon, `step` is the identity, so any sufficiently large `fuel` yields
the final state of the run. -/
def runState (cfg : Config α) (fuel : ℕ) : SimState α :=
  (step cfg)^[fuel] (initState cfg)

/-- A state is reachable when some number of scheduler steps from the initial state
produces it. -/
def Reachable (cfg : Config α) (s : SimState α) : Prop :=
  ∃ n, runState cfg n = s

/-- Embedding of `run_simulation(num_drivers)`.  Constructing
`simpy.Resource(env, capacity=drivers)` raises
`ValueError('"capacity" must be > 0.')` for a non-positive capacity, before any
event is processed; otherwise the run executes to the horizon and the `stats`
list is returned (the harness then aggregates it). -/
def run_simulation (cfg : Config α) (fuel : ℕ) : Except String (List (OrderRecord α)) :=
  if cfg.drivers ≤ 0 then Except.error "\"capacity\" must be > 0."
  else Except.ok (runState cfg fuel).stats

/-- Mean of `Total_Delivery_Time` over a result list produced at `α := ℤ` (the
code's `df["Total_Delivery_Time"].mean()`, before its 2-decimal rounding). -/
def avgTotalTime (l : List (OrderRecord ℤ)) : ℚ :=
  ((l.map OrderRecord.Total_Delivery_Time).sum : ℤ) / (l.length : ℚ)

/-- SLA compliance percentage over a result list produced at `α := ℤ` (the code's
`df["SLA_Met"].mean() * 100`, before its 2-decimal rounding). -/
def slaCompliance (l : List (OrderRecord ℤ)) : ℚ :=
  100 * ((l.filter fun r => r.SLA_Met).length : ℚ) / (l.length : ℚ)

/-- Does the embedded `run_simulation` return normally? -/
def runsOk {β : Type*} (x : Except String β) : Bool :=
  match x with
  | Except.ok _ => true
  | Except.error _ => false

instance {ε β : Type*} [DecidableEq ε] [DecidableEq β] : DecidableEq (Except ε β) :=
  fun a b =>
  match a, b with
  | Except.error x, Except.error y =>
    if h : x = y then isTrue (by rw [h])
    else isFalse (fun hc => h (Except.error.inj hc))
  | Except.error _, Except.ok _ => isFalse (fun hc => Except.noConfusion hc)
  | Except.ok _, Except.error _ => isFalse (fun hc => Except.noConfusion hc)
  | Except.ok x, Except.ok y =>
    if h : x = y then isTrue (by rw [h])
    else isFalse (fun hc => h (Except.ok.inj hc))

/-! ### Basic facts about the scheduler's event selection -/

theorem popMin_mem {l : List (QEntry α)} {e : QEntry α} {rest : List (QEntry α)}
    (h : popMin l = some (e, rest)) : e ∈ l := by
  induction l generalizing e rest with
  | nil => simp [popMin] at h
  | cons a as ih =>
    simp only [popMin] at h
    rcases hpm : popMin (α := α) as with _ | ⟨m, r⟩ <;> rw [hpm] at h <;> dsimp only at h
    · simp only [Option.some.injEq, Prod.mk.injEq] at h
      exact h.1 ▸ List.mem_cons_self a as
    · by_cases hc : a.time < m.time ∨ (a.time = m.time ∧ a.seq ≤ m.seq)
      · rw [if_pos hc] at h
        simp only [Option.some.injEq, Prod.mk.injEq] at h
        exact h.1 ▸ List.mem_cons_self a as
      · rw [if_neg hc] at h
        simp only [Option.some.injEq, Prod.mk.injEq] at h
        exact List.mem_cons_of_mem a (h.1 ▸ ih hpm)

theorem popMin_rest_mem {l : List (QEntry α)} {e : QEntry α} {rest : List (QEntry α)}
    (h : popMin l = some (e, rest)) : ∀ x ∈ rest, x ∈ l := by
  induction l generalizing e rest with
  | nil => simp [popMin] at h
  | cons a as ih =>
    simp only [popMin] at h
    rcases hpm : popMin (α := α) as with _ | ⟨m, r⟩ <;> rw [hpm] at h <;> dsimp only at h
    · simp only [Option.some.injEq, Prod.mk.injEq] at h
      rw [← h.2]
      intro x hx
      exact absurd hx (List.not_mem_nil x)
    · by_cases hc : a.time < m.time ∨ (a.time = m.time ∧ a.seq ≤ m.seq)
      · rw [if_pos hc] at h
        simp only [Option.some.injEq, Prod.mk.injEq] at h
        rw [← h.2]
        exact fun x hx => List.mem_cons_of_mem a hx
      · rw [if_neg hc] at h
        simp only [Option.some.injEq, Prod.mk.injEq] at h
        rw [← h.2]
        intro x hx
        rcases List.mem_cons.mp hx with hx | hx
        · exact hx ▸ List.mem_cons_self a as
        · exact List.mem_cons_of_mem a (ih hpm x hx)

theorem popMin_eq_none {l : List (QEntry α)} (h : popMin l = none) : l = [] := by
  cases l with
  | nil => rfl
  | cons a as =>
    simp only [popMin] at h
    rcases hpm : popMin (α := α) as with _ | ⟨m, r⟩ <;> rw [hpm] at h <;> dsimp only at h
    · exact absurd h (by simp)
    · by_cases hc : a.time < m.time ∨ (a.time = m.time ∧ a.seq ≤ m.seq)
      · rw [if_pos hc] at h; exact absurd h (by simp)
      · rw [if_neg hc] at h; exact absurd h (by simp)

theorem popMin_min {l : List (QEntry α)} {e : QEntry α} {rest : List (QEntry α)}
    (h : popMin l = some (e, rest)) : ∀ x ∈ l, e.time ≤ x.time := by
  induction l generalizing e rest with
  | nil => simp [popMin] at h
  | cons a as ih =>
    simp only [popMin] at h
    rcases hpm : popMin (α := α) as with _ | ⟨m, r⟩ <;> rw [hpm] at h <;> dsimp only at h
    · simp only [Option.some.injEq, Prod.mk.injEq] at h
      obtain ⟨rfl, -⟩ := h
      have has := popMin_eq_none hpm
      subst has
      intro x hx
      rcases List.mem_cons.mp hx with rfl | hx
      · exact le_refl _
      · exact absurd hx (List.not_mem_nil x)
    · by_cases hc : a.time < m.time ∨ (a.time = m.time ∧ a.seq ≤ m.seq)
      · rw [if_pos hc] at h
        simp only [Option.some.injEq, Prod.mk.injEq] at h
        obtain ⟨rfl, -⟩ := h
        intro x hx
        rcases List.mem_cons.mp hx with rfl | hx
        · exact le_refl _
        · have hm := ih hpm x hx
          rcases hc with hc | hc
          · exact le_trans (le_of_lt hc) hm
          · exact le_trans (le_of_eq hc.1) hm
      · rw [if_neg hc] at h
        simp only [Option.some.injEq, Prod.mk.injEq] at h
        obtain ⟨rfl, -⟩ := h
        push_neg at hc
        intro x hx
        rcases List.mem_cons.mp hx with rfl | hx
        · exact hc.1
        · exact ih hpm x hx

end PizzaHut

namespace PizzaHut

/-! ### The simulation invariant

`EvOk`, `WOk` and `RecOk` record, for pending events, queued resource requests and
emitted records respectively, the timestamp facts that hold at their creation and
are preserved by every scheduler step; `Inv` bundles them with the resource-pool
capacity bound and the instrumented FIFO bookkeeping. -/

variable {α : Type*} [LinearOrderedCommRing α]

/-- Timestamp facts carried by a pending event when the clock reads `now`:
no event is due in the past, a preparation timeout is due at least 5 units past
the order's arrival, and a delivery timeout's payload satisfies
arrival + 5 ≤ ready ≤ assigned and is due at least 5 units past the grant. -/
def EvOk (now : α) (e : QEntry α) : Prop :=
  now ≤ e.time ∧
    match e.ev with
    | Ev.nextArrival => True
    | Ev.prepDone _ a => a + 5 ≤ e.time
    | Ev.delivDone _ a r g => a + 5 ≤ r ∧ r ≤ g ∧ g + 5 ≤ e.time

/-- Facts about a queued resource request when the clock reads `now`: the order
became ready at least 5 units after its arrival, and not in the future. -/
def WOk (now : α) (w : Waiter α) : Prop :=
  w.arrival + 5 ≤ w.ready ∧ w.ready ≤ now

/-- Facts about an emitted record: the four timestamps in stage order with the two
5-unit stage floors, and the three computed fields exactly as `order` computes
them. -/
def RecOk (cfg : Config α) (r : OrderRecord α) : Prop :=
  r.arrival_time + 5 ≤ r.ready_time ∧
  r.ready_time ≤ r.driver_assigned_time ∧
  r.driver_assigned_time + 5 ≤ r.completion_time ∧
  r.Wait_For_Driver = r.driver_assigned_time - r.ready_time ∧
  r.Total_Delivery_Time = r.completion_time - r.arrival_time ∧
  r.SLA_Met = decide (r.Total_Delivery_Time ≤ cfg.slaTarget)

/-- The inductive invariant of the simulation. -/
structure Inv (cfg : Config α) (s : SimState α) : Prop where
  held_le : s.held ≤ cfg.capacity
  events_ok : ∀ e ∈ s.events, EvOk s.now e
  waiters_ok : ∀ w ∈ s.waiters, WOk s.now w
  stats_ok : ∀ r ∈ s.stats, RecOk cfg r
  fifo : s.grantLog.map Prod.fst ++ s.waiters.map Waiter.oid = s.reqLog
  grant_pairwise : s.grantLog.Pairwise (fun p q => p.2 ≤ q.2)
  grant_le_now : ∀ p ∈ s.grantLog, p.2 ≤ s.now

theorem evOk_mono {now now' : α} {e : QEntry α} (h : EvOk now e) (ht : now' ≤ e.time) :
    EvOk now' e :=
  ⟨ht, h.2⟩

theorem wOk_mono {now now' : α} {w : Waiter α} (h : WOk now w) (ht : now ≤ now') :
    WOk now' w :=
  ⟨h.1, le_trans h.2 ht⟩

theorem five_nonneg : (0 : α) ≤ 5 := by norm_num

theorem deliver_order_nonneg (cfg : Config α) (i : ℕ) : 0 ≤ deliver_order cfg i :=
  le_trans five_nonneg (le_max_left _ _)

theorem prepare_order_nonneg (cfg : Config α) (i : ℕ) : 0 ≤ prepare_order cfg i :=
  le_trans five_nonneg (le_max_left _ _)

/-- Granting from the head of the FIFO queue preserves the invariant.  The
hypotheses are the invariant's fields stated for the queue `ws` that
`grantWaiters` is traversing (which replaces the `waiters` field of `s`). -/
theorem grantWaiters_inv (cfg : Config α) (ws : List (Waiter α)) (s : SimState α)
    (hheld : s.held ≤ cfg.capacity)
    (hev : ∀ e ∈ s.events, EvOk s.now e)
    (hws : ∀ w ∈ ws, WOk s.now w)
    (hst : ∀ r ∈ s.stats, RecOk cfg r)
    (hfifo : s.grantLog.map Prod.fst ++ ws.map Waiter.oid = s.reqLog)
    (hgp : s.grantLog.Pairwise (fun p q : ℕ × α => p.2 ≤ q.2))
    (hgn : ∀ p ∈ s.grantLog, p.2 ≤ s.now) :
    Inv cfg (grantWaiters cfg ws s) := by
  induction ws generalizing s with
  | nil =>
    rw [grantWaiters]
    exact { held_le := hheld, events_ok := hev, waiters_ok := by simp,
            stats_ok := hst, fifo := by simpa using hfifo,
            grant_pairwise := hgp, grant_le_now := hgn }
  | cons w rest ih =>
    rw [grantWaiters]
    by_cases hc : s.held < cfg.capacity
    · rw [if_pos hc]
      apply ih
      · exact hc
      · intro e he
        rcases List.mem_append.mp he with he | he
        · exact hev e he
        · rcases List.mem_singleton.mp he with rfl
          refine ⟨le_add_of_nonneg_right (deliver_order_nonneg cfg s.idx), ?_, ?_, ?_⟩
          · exact (hws w (List.mem_cons_self w rest)).1
          · exact (hws w (List.mem_cons_self w rest)).2
          · exact add_le_add_left (le_max_left _ _) s.now
      · exact fun x hx => hws x (List.mem_cons_of_mem w hx)
      · exact hst
      · simpa using hfifo
      · rw [List.pairwise_append]
        refine ⟨hgp, List.pairwise_singleton _ _, ?_⟩
        intro p hp q hq
        rcases List.mem_singleton.mp hq with rfl
        exact hgn p hp
      · intro p hp
        rcases List.mem_append.mp hp with hp | hp
        · exact hgn p hp
        · rcases List.mem_singleton.mp hp with rfl
          exact le_refl _
    · rw [if_neg hc]
      exact { held_le := hheld, events_ok := hev, waiters_ok := hws,
              stats_ok := hst, fifo := hfifo,
              grant_pairwise := hgp, grant_le_now := hgn }

end PizzaHut

namespace PizzaHut

variable {α : Type*} [LinearOrderedCommRing α]

theorem prepare_order_ge_five (cfg : Config α) (i : ℕ) : (5 : α) ≤ prepare_order cfg i :=
  le_max_left _ _

theorem deliver_order_ge_five (cfg : Config α) (i : ℕ) : (5 : α) ≤ deliver_order cfg i :=
  le_max_left _ _

theorem evOk_nextArrival {now t : α} {sq : ℕ} (h : now ≤ t) :
    EvOk now ⟨t, sq, Ev.nextArrival⟩ :=
  ⟨h, trivial⟩

theorem evOk_prepDone {now t a : α} {sq oid : ℕ} (h : now ≤ t) (h5 : a + 5 ≤ t) :
    EvOk now ⟨t, sq, Ev.prepDone oid a⟩ :=
  ⟨h, h5⟩

theorem evOk_delivDone {now t a r g : α} {sq oid : ℕ} (h : now ≤ t) (h1 : a + 5 ≤ r)
    (h2 : r ≤ g) (h3 : g + 5 ≤ t) : EvOk now ⟨t, sq, Ev.delivDone oid a r g⟩ :=
  ⟨h, h1, h2, h3⟩

theorem evOk_prepDone_le {now t a : α} {sq oid : ℕ}
    (h : EvOk now ⟨t, sq, Ev.prepDone oid a⟩) : a + 5 ≤ t :=
  h.2

theorem evOk_delivDone_le {now t a r g : α} {sq oid : ℕ}
    (h : EvOk now ⟨t, sq, Ev.delivDone oid a r g⟩) : a + 5 ≤ r ∧ r ≤ g ∧ g + 5 ≤ t :=
  h.2

/-- One scheduler step preserves the invariant (given that exponential arrival
gaps are nonnegative, which keeps the virtual clock monotone). -/
theorem step_inv (cfg : Config α) (hexp : ∀ n, 0 ≤ cfg.expOut n) {s : SimState α}
    (h : Inv cfg s) : Inv cfg (step cfg s) := by
  unfold step
  rcases hpm : popMin s.events with _ | ⟨e, rest⟩
  · exact h
  have heMem : e ∈ s.events := popMin_mem hpm
  have hnow : s.now ≤ e.time := (h.events_ok e heMem).1
  have hrest : ∀ x ∈ rest, x ∈ s.events := popMin_rest_mem hpm
  have hmin : ∀ x ∈ s.events, e.time ≤ x.time := popMin_min hpm
  dsimp only
  by_cases hT : cfg.simTime ≤ e.time
  · rw [if_pos hT]; exact h
  rw [if_neg hT]
  obtain ⟨et, esq, eev⟩ := e
  dsimp only at hnow hmin
  have hevrest : ∀ x ∈ rest, EvOk et x :=
    fun x hx => evOk_mono (h.events_ok x (hrest x hx)) (hmin x (hrest x hx))
  rcases eev with _ | ⟨oid, a⟩ | ⟨oid, a, r, g⟩
  · -- the order_generator slice: spawn an order, schedule the next arrival
    refine
      { held_le := h.held_le
        events_ok := ?_
        waiters_ok := fun w hw => wOk_mono (h.waiters_ok w hw) hnow
        stats_ok := h.stats_ok
        fifo := h.fifo
        grant_pairwise := h.grant_pairwise
        grant_le_now := fun p hp => le_trans (h.grant_le_now p hp) hnow }
    intro x hx
    rcases List.mem_append.mp hx with hx | hx
    · exact hevrest x hx
    · rcases List.mem_cons.mp hx with rfl | hx
      · exact evOk_nextArrival (le_add_of_nonneg_right (hexp _))
      · rcases List.mem_singleton.mp hx with rfl
        exact evOk_prepDone (le_add_of_nonneg_right (prepare_order_nonneg cfg _))
          (add_le_add_left (prepare_order_ge_five cfg _) et)
  · -- a preparation timeout fires: the order requests a driver
    have hready : a + 5 ≤ et := evOk_prepDone_le (h.events_ok _ heMem)
    apply grantWaiters_inv
    · exact h.held_le
    · exact hevrest
    · intro w hw
      rcases List.mem_append.mp hw with hw | hw
      · exact wOk_mono (h.waiters_ok w hw) hnow
      · rcases List.mem_singleton.mp hw with rfl
        exact ⟨hready, le_refl _⟩
    · exact h.stats_ok
    · simp only [List.map_append, List.map_cons, List.map_nil, ← List.append_assoc, h.fifo]
    · exact h.grant_pairwise
    · exact fun p hp => le_trans (h.grant_le_now p hp) hnow
  · -- a delivery timeout fires: record the order, release the driver
    have hpay : a + 5 ≤ r ∧ r ≤ g ∧ g + 5 ≤ et := evOk_delivDone_le (h.events_ok _ heMem)
    apply grantWaiters_inv
    · exact le_trans (Nat.sub_le _ _) h.held_le
    · exact hevrest
    · exact fun w hw => wOk_mono (h.waiters_ok w hw) hnow
    · intro x hx
      rcases List.mem_append.mp hx with hx | hx
      · exact h.stats_ok x hx
      · rcases List.mem_singleton.mp hx with rfl
        exact ⟨hpay.1, hpay.2.1, hpay.2.2, rfl, rfl, rfl⟩
    · exact h.fifo
    · exact h.grant_pairwise
    · exact fun p hp => le_trans (h.grant_le_now p hp) hnow

/-- The initial state satisfies the invariant. -/
theorem initState_inv (cfg : Config α) (hexp : ∀ n, 0 ≤ cfg.expOut n) :
    Inv cfg (initState cfg) := by
  refine
    { held_le := Nat.zero_le _
      events_ok := ?_
      waiters_ok := by simp [initState]
      stats_ok := by simp [initState]
      fifo := by simp [initState]
      grant_pairwise := by simp [initState]
      grant_le_now := by simp [initState] }
  intro e he
  simp only [initState, List.mem_singleton] at he
  subst he
  exact evOk_nextArrival (hexp 0)

/-- Every reachable state satisfies the invariant. -/
theorem reachable_inv {cfg : Config α} (hexp : ∀ n, 0 ≤ cfg.expOut n) {s : SimState α}
    (h : Reachable cfg s) : Inv cfg s := by
  obtain ⟨n, rfl⟩ := h
  induction n with
  | zero => exact initState_inv cfg hexp
  | succ n ih =>
    have hstep : runState cfg (n + 1) = step cfg (runState cfg n) := by
      simp [runState, Function.iterate_succ_apply']
    rw [hstep]
    exact step_inv cfg hexp ih

end PizzaHut

namespace PizzaHut

/-! ### Concrete runs (at `α := ℤ`) used as witnesses and counterexamples

`cfgA` is a one-driver run to the horizon 1000 with SLA target 30 and an explicit
draw sequence; `cfgB` is the same run with two drivers.  The draw values are chosen
so that in the two-driver run order 2 is granted a driver earlier and thereby
consumes a different (much larger) delivery draw from the shared stream. -/

def cfgA : Config ℤ :=
  { drivers := 1
    simTime := 1000
    slaTarget := 30
    expOut := fun n =>
      if n = 0 then 1 else if n = 1 then 6 else if n = 4 then 6 else
      if n = 6 then 10000 else if n = 7 then 10000 else 0
    prepOut := fun n =>
      if n = 2 then 5 else if n = 5 then 5 else if n = 7 then 10000 else
      if n = 8 then 5 else 0
    delivOut := fun n =>
      if n = 3 then 8 else if n = 6 then 10000 else if n = 8 then 5 else
      if n = 9 then 500 else 0 }

/-- The same run as `cfgA` with two drivers instead of one. -/
def cfgB : Config ℤ := { cfgA with drivers := 2 }

/-- The same run as `cfgA` with zero drivers. -/
def cfg0 : Config ℤ := { cfgA with drivers := 0 }

/-- The same run as `cfgA` with a negative SLA threshold. -/
def cfgNegSLA : Config ℤ := { cfgA with slaTarget := -1 }

theorem cfgA_expOut_nonneg : ∀ n, (0 : ℤ) ≤ cfgA.expOut n := by
  intro n
  simp only [cfgA]
  split_ifs <;> norm_num

/-- The final statistics of the one-driver run: orders 1 and 2 complete
(totals 13 and 12), order 3 is still preparing at the horizon. -/
theorem cfgA_run_stats : (runState cfgA 20).stats =
    [⟨1, 1, 6, 6, 14, 0, 13, true⟩, ⟨2, 7, 12, 14, 19, 2, 12, true⟩] := by decide

/-- The final statistics of the two-driver run: order 2 is granted a driver at
time 12 and consumes the draw-stream position that the one-driver run spent on an
arrival gap, receiving a 10000-unit delivery; it never completes before the
horizon, while order 3 completes with total time 505. -/
theorem cfgB_run_stats : (runState cfgB 20).stats =
    [⟨1, 1, 6, 6, 14, 0, 13, true⟩, ⟨3, 13, 18, 18, 518, 0, 505, false⟩] := by decide

theorem cfgA_avg_lt_cfgB_avg :
    avgTotalTime (runState cfgA 20).stats < avgTotalTime (runState cfgB 20).stats := by
  rw [cfgA_run_stats, cfgB_run_stats]
  norm_num [avgTotalTime]

theorem cfgB_sla_lt_cfgA_sla :
    slaCompliance (runState cfgB 20).stats < slaCompliance (runState cfgA 20).stats := by
  rw [cfgA_run_stats, cfgB_run_stats]
  norm_num [slaCompliance, List.filter]

end PizzaHut

namespace PizzaHut

variable {α : Type*} [LinearOrderedCommRing α]

/-! ### The claims -/

/-- C1: at every virtual-time instant during a run — that is, in every reachable
simulation state — the number of concurrently held driver units never exceeds the
capacity `C` handed to the resource pool: `0 ≤ held ≤ C`. -/
theorem C1_held_bounded_by_capacity (cfg : Config α) (hexp : ∀ n, 0 ≤ cfg.expOut n)
    (s : SimState α) (hs : Reachable cfg s) (hpos : 0 ≤ cfg.drivers) :
    0 ≤ s.held ∧ (s.held : ℤ) ≤ cfg.drivers := by
  refine ⟨Nat.zero_le _, ?_⟩
  have h : (s.held : ℤ) ≤ (cfg.capacity : ℤ) :=
    Int.ofNat_le.mpr (reachable_inv hexp hs).held_le
  rwa [Config.capacity, Int.toNat_of_nonneg hpos] at h

/-- C1 witness: in the one-driver run after six scheduler steps (the clock reads 14
and order 2 is out for delivery) the pool bound holds. -/
theorem C1_witness :
    0 ≤ (runState cfgA 6).held ∧ ((runState cfgA 6).held : ℤ) ≤ cfgA.drivers :=
  C1_held_bounded_by_capacity cfgA cfgA_expOut_nonneg (runState cfgA 6) ⟨6, rfl⟩
    (by decide)

/-- C2: every record of a completed order has its four timestamps in monotone stage
order: `arrival_time ≤ ready_time ≤ driver_assigned_time ≤ completion_time`. -/
theorem C2_timestamps_monotone (cfg : Config α) (hexp : ∀ n, 0 ≤ cfg.expOut n)
    (s : SimState α) (hs : Reachable cfg s) :
    ∀ r ∈ s.stats,
      r.arrival_time ≤ r.ready_time ∧ r.ready_time ≤ r.driver_assigned_time ∧
        r.driver_assigned_time ≤ r.completion_time := by
  intro r hr
  obtain ⟨h1, h2, h3, -, -, -⟩ := (reachable_inv hexp hs).stats_ok r hr
  exact ⟨by linarith, h2, by linarith⟩

/-- C2 witness: the first completed order of the one-driver run. -/
theorem C2_witness :
    (⟨1, 1, 6, 6, 14, 0, 13, true⟩ : OrderRecord ℤ).arrival_time ≤
        (⟨1, 1, 6, 6, 14, 0, 13, true⟩ : OrderRecord ℤ).ready_time ∧
      (⟨1, 1, 6, 6, 14, 0, 13, true⟩ : OrderRecord ℤ).ready_time ≤
        (⟨1, 1, 6, 6, 14, 0, 13, true⟩ : OrderRecord ℤ).driver_assigned_time ∧
      (⟨1, 1, 6, 6, 14, 0, 13, true⟩ : OrderRecord ℤ).driver_assigned_time ≤
        (⟨1, 1, 6, 6, 14, 0, 13, true⟩ : OrderRecord ℤ).completion_time :=
  C2_timestamps_monotone cfgA cfgA_expOut_nonneg (runState cfgA 20) ⟨20, rfl⟩ _
    (by decide)

/-- C3: every record of a completed order satisfies `wait_for_driver ≥ 0`,
`total_time ≥ wait_for_driver`, and the exact accounting identity
`total_time = (ready − arrival) + wait_for_driver + (completion − assigned)`. -/
theorem C3_time_accounting (cfg : Config α) (hexp : ∀ n, 0 ≤ cfg.expOut n)
    (s : SimState α) (hs : Reachable cfg s) :
    ∀ r ∈ s.stats,
      0 ≤ r.Wait_For_Driver ∧ r.Wait_For_Driver ≤ r.Total_Delivery_Time ∧
        r.Total_Delivery_Time = (r.ready_time - r.arrival_time) + r.Wait_For_Driver +
          (r.completion_time - r.driver_assigned_time) := by
  intro r hr
  obtain ⟨h1, h2, h3, hw, ht, -⟩ := (reachable_inv hexp hs).stats_ok r hr
  refine ⟨?_, ?_, ?_⟩
  · rw [hw]; linarith
  · rw [hw, ht]; linarith
  · rw [hw, ht]; ring

/-- C3 witness: the second completed order of the one-driver run (which waited two
time units for a driver). -/
theorem C3_witness :
    0 ≤ (⟨2, 7, 12, 14, 19, 2, 12, true⟩ : OrderRecord ℤ).Wait_For_Driver ∧
      (⟨2, 7, 12, 14, 19, 2, 12, true⟩ : OrderRecord ℤ).Wait_For_Driver ≤
        (⟨2, 7, 12, 14, 19, 2, 12, true⟩ : OrderRecord ℤ).Total_Delivery_Time ∧
      (⟨2, 7, 12, 14, 19, 2, 12, true⟩ : OrderRecord ℤ).Total_Delivery_Time =
        ((⟨2, 7, 12, 14, 19, 2, 12, true⟩ : OrderRecord ℤ).ready_time -
            (⟨2, 7, 12, 14, 19, 2, 12, true⟩ : OrderRecord ℤ).arrival_time) +
          (⟨2, 7, 12, 14, 19, 2, 12, true⟩ : OrderRecord ℤ).Wait_For_Driver +
          ((⟨2, 7, 12, 14, 19, 2, 12, true⟩ : OrderRecord ℤ).completion_time -
            (⟨2, 7, 12, 14, 19, 2, 12, true⟩ : OrderRecord ℤ).driver_assigned_time) :=
  C3_time_accounting cfgA cfgA_expOut_nonneg (runState cfgA 20) ⟨20, rfl⟩ _ (by decide)

/-- C4: driver grants are issued strictly in request order.  In every reachable
state the sequence of grants so far followed by the still-waiting requests, in
order, is exactly the sequence of requests in issue order (no waiter is ever
overtaken), and grant times are monotone along the grant sequence (an earlier
request is granted no later than a later one). -/
theorem C4_fifo_grants (cfg : Config α) (hexp : ∀ n, 0 ≤ cfg.expOut n)
    (s : SimState α) (hs : Reachable cfg s) :
    s.grantLog.map Prod.fst ++ s.waiters.map Waiter.oid = s.reqLog ∧
      s.grantLog.Pairwise (fun p q => p.2 ≤ q.2) :=
  ⟨(reachable_inv hexp hs).fifo, (reachable_inv hexp hs).grant_pairwise⟩

/-- C4 witness: the one-driver run after six steps, where orders 1 and 2 have been
granted (at times 6 and 14) and no requests are pending. -/
theorem C4_witness :
    (runState cfgA 6).grantLog.map Prod.fst ++
        (runState cfgA 6).waiters.map Waiter.oid = (runState cfgA 6).reqLog ∧
      (runState cfgA 6).grantLog.Pairwise (fun p q => p.2 ≤ q.2) :=
  C4_fifo_grants cfgA cfgA_expOut_nonneg (runState cfgA 6) ⟨6, rfl⟩

/-- C5: the run operation is a pure function of its configuration (capacity,
horizon, SLA threshold and the seeded draw sequences): identical inputs produce
identical output record sequences. -/
theorem C5_run_deterministic (cfg₁ cfg₂ : Config α) (fuel : ℕ) (h : cfg₁ = cfg₂) :
    run_simulation cfg₁ fuel = run_simulation cfg₂ fuel := by
  rw [h]

/-- C5 witness: the one-driver configuration, run twice. -/
theorem C5_witness : run_simulation cfgA 20 = run_simulation cfgA 20 :=
  C5_run_deterministic cfgA cfgA 20 rfl

/-- C6 counterexample: with capacity 0 the run does NOT return an empty result
sequence — `simpy.Resource` rejects a non-positive capacity with a `ValueError`
before the simulation starts, so the run fails. -/
theorem C6_counterexample : run_simulation cfg0 20 ≠ Except.ok [] := by decide

/-- C6 (amended): with capacity `C = 0` the run fails fast: the resource-pool
constructor rejects the capacity and the run returns an error before any
simulation is performed; no record sequence (not even an empty one) is produced. -/
theorem C6_capacity_zero_fails_fast (cfg : Config α) (fuel : ℕ) (h : cfg.drivers = 0) :
    run_simulation cfg fuel = Except.error "\"capacity\" must be > 0." := by
  rw [run_simulation, if_pos (le_of_eq h)]

/-- C6 witness: the zero-driver configuration. -/
theorem C6_capacity_zero_fails_fast_witness :
    run_simulation cfg0 20 = Except.error "\"capacity\" must be > 0." :=
  C6_capacity_zero_fails_fast cfg0 20 rfl

/-- C7 counterexample: under one shared draw sequence and otherwise identical
parameters, raising the capacity from 1 to 2 strictly increases the mean total
delivery time (12.5 to 259) and strictly decreases SLA compliance (100% to 50%):
capacity changes reassign the shared random stream's draws to different orders. -/
theorem C7_counterexample :
    cfgA.drivers < cfgB.drivers ∧
      avgTotalTime (runState cfgA 20).stats < avgTotalTime (runState cfgB 20).stats ∧
      slaCompliance (runState cfgB 20).stats < slaCompliance (runState cfgA 20).stats :=
  ⟨by decide, cfgA_avg_lt_cfgB_avg, cfgB_sla_lt_cfgA_sla⟩

/-- C7 (amended): increasing the capacity while holding the seeded draw sequence
and all other parameters fixed does not in general improve the outcome: there are
configurations differing only in capacity for which the larger capacity has a
strictly larger mean total delivery time and a strictly smaller SLA compliance
percentage.  Pathwise monotonicity in the capacity fails. -/
theorem C7_amended_not_pathwise_monotone :
    ∃ (cfg₁ cfg₂ : Config ℤ) (fuel : ℕ),
      cfg₁.simTime = cfg₂.simTime ∧ cfg₁.slaTarget = cfg₂.slaTarget ∧
        cfg₁.expOut = cfg₂.expOut ∧ cfg₁.prepOut = cfg₂.prepOut ∧
        cfg₁.delivOut = cfg₂.delivOut ∧ cfg₁.drivers < cfg₂.drivers ∧
        avgTotalTime (runState cfg₁ fuel).stats <
          avgTotalTime (runState cfg₂ fuel).stats ∧
        slaCompliance (runState cfg₂ fuel).stats <
          slaCompliance (runState cfg₁ fuel).stats :=
  ⟨cfgA, cfgB, 20, rfl, rfl, rfl, rfl, rfl, by decide, cfgA_avg_lt_cfgB_avg,
    cfgB_sla_lt_cfgA_sla⟩

/-- C8 counterexample: a negative SLA threshold is NOT rejected before the
simulation starts: the run with `SLA_TARGET = -1` returns normally and produces a
non-empty record sequence (every record simply carries `SLA_Met = false`). -/
theorem C8_counterexample :
    runsOk (run_simulation cfgNegSLA 20) = true ∧
      run_simulation cfgNegSLA 20 ≠ Except.ok [] := by
  exact ⟨rfl, by decide⟩

/-- C8 (amended): the only configuration validation is the resource pool's: a
non-positive capacity fails fast (error before any simulation, never clamped),
while any SLA threshold — negative included — is accepted and the run returns
normally, the threshold being used as-is in the records' SLA comparisons.  (The
arrival rate is a fixed module constant, not a run parameter, and is likewise
never validated.) -/
theorem C8_amended_validation (cfg : Config α) (fuel : ℕ) :
    (cfg.drivers ≤ 0 →
        run_simulation cfg fuel = Except.error "\"capacity\" must be > 0.") ∧
      (0 < cfg.drivers →
        run_simulation cfg fuel = Except.ok (runState cfg fuel).stats) := by
  constructor
  · intro h; rw [run_simulation, if_pos h]
  · intro h; rw [run_simulation, if_neg (not_le.mpr h)]

/-- C8 witness: the zero-driver configuration errors; the negative-SLA
configuration returns its records. -/
theorem C8_amended_validation_witness :
    run_simulation cfg0 20 = Except.error "\"capacity\" must be > 0." ∧
      run_simulation cfgNegSLA 20 = Except.ok (runState cfgNegSLA 20).stats :=
  ⟨(C8_amended_validation cfg0 20).1 (by decide),
    (C8_amended_validation cfgNegSLA 20).2 (by decide)⟩

/-- C9: every preparation and delivery duration drawn during a run is at least 5
time units — directly for the two floored generators, and as realized in every
completed order's record (`ready − arrival ≥ 5` and `completion − assigned ≥ 5`),
so no stage ever has a zero or negative duration. -/
theorem C9_durations_floored (cfg : Config α) (hexp : ∀ n, 0 ≤ cfg.expOut n) (i : ℕ)
    (s : SimState α) (hs : Reachable cfg s) :
    5 ≤ prepare_order cfg i ∧ 5 ≤ deliver_order cfg i ∧
      ∀ r ∈ s.stats,
        5 ≤ r.ready_time - r.arrival_time ∧
          5 ≤ r.completion_time - r.driver_assigned_time := by
  refine ⟨prepare_order_ge_five cfg i, deliver_order_ge_five cfg i, ?_⟩
  intro r hr
  obtain ⟨h1, -, h3, -, -, -⟩ := (reachable_inv hexp hs).stats_ok r hr
  constructor <;> linarith

/-- C9 witness: draw position 3 of the one-driver run and its first completed
order. -/
theorem C9_witness :
    5 ≤ prepare_order cfgA 3 ∧ 5 ≤ deliver_order cfgA 3 ∧
      ∀ r ∈ (runState cfgA 20).stats,
        5 ≤ r.ready_time - r.arrival_time ∧
          5 ≤ r.completion_time - r.driver_assigned_time :=
  C9_durations_floored cfgA cfgA_expOut_nonneg 3 (runState cfgA 20) ⟨20, rfl⟩

/-- C10: every record emitted to the statistics collector has
`Total_Delivery_Time ≥ 10`: the two 5-unit stage floors plus a nonnegative driver
wait bound the total from below. -/
theorem C10_total_at_least_ten (cfg : Config α) (hexp : ∀ n, 0 ≤ cfg.expOut n)
    (s : SimState α) (hs : Reachable cfg s) :
    ∀ r ∈ s.stats, 10 ≤ r.Total_Delivery_Time := by
  intro r hr
  obtain ⟨h1, h2, h3, -, ht, -⟩ := (reachable_inv hexp hs).stats_ok r hr
  rw [ht]
  linarith

/-- C10 witness: the second completed order of the one-driver run (total 12). -/
theorem C10_witness :
    10 ≤ (⟨2, 7, 12, 14, 19, 2, 12, true⟩ : OrderRecord ℤ).Total_Delivery_Time :=
  C10_total_at_least_ten cfgA cfgA_expOut_nonneg (runState cfgA 20) ⟨20, rfl⟩ _
    (by decide)

end PizzaHut
